import Mathlib

/-!
Verification of `datacube/utils/geometry/gbox.py`: geometric operations on
the `GeoBox` raster-grid descriptor, and the `GeoboxTiles` partitioner.

Embedding conventions:
* Floating-point affine coefficients are embedded as elements of an arbitrary
  field `α` (instantiated at `ℚ` for concrete evaluation); floating-point
  rounding is outside the model, so equalities are exact-arithmetic statements.
* An `Affine` value holds the six coefficients `a b c d e f` of the 2-D map
  `(x, y) ↦ (a·x + b·y + c, d·x + e·y + f)`, exactly as in the `affine`
  python library; `*` is composition (3×3 matrix product with last row 0 0 1).
* Python `slice(start, stop)` objects (no step) become the `Slice` structure
  over `ℤ`; tile indices are `ℤ × ℤ` since python ints are signed.
* `raise IndexError` becomes the `.error ()` branch of `Except Unit`;
  the mutation of `GeoboxTiles._cache` is state passing: `getItem` returns
  the result together with the (possibly extended) partitioner.
-/

deriving instance DecidableEq for Except

namespace DatacubeGbox

/-- A 2-D affine transform given by its six coefficients, as in the python
`affine` library: `(x, y) ↦ (a·x + b·y + c, d·x + e·y + f)`. -/
@[ext]
structure Affine (α : Type) where
  a : α
  b : α
  c : α
  d : α
  e : α
  f : α
deriving DecidableEq

variable {α : Type} [Field α]

/-- Composition of affine transforms, `Affine.__mul__`: the 3×3 matrix
product of `(a b c; d e f; 0 0 1)` matrices. `(A * B).apply p = A.apply (B.apply p)`. -/
def Affine.comp (A B : Affine α) : Affine α :=
  { a := A.a * B.a + A.b * B.d
    b := A.a * B.b + A.b * B.e
    c := A.a * B.c + A.b * B.f + A.c
    d := A.d * B.a + A.e * B.d
    e := A.d * B.b + A.e * B.e
    f := A.d * B.c + A.e * B.f + A.f }

instance : Mul (Affine α) := ⟨Affine.comp⟩

@[simp]
theorem Affine.mul_def (A B : Affine α) : A * B = A.comp B := rfl

/-- Application of an affine transform to a point, `Affine.__mul__` with a
coordinate pair on the right. -/
def Affine.apply (A : Affine α) (p : α × α) : α × α :=
  (A.a * p.1 + A.b * p.2 + A.c, A.d * p.1 + A.e * p.2 + A.f)

/-- Embeds `Affine.translation(dx, dy)`. -/
def Affine.translation (dx dy : α) : Affine α :=
  { a := 1, b := 0, c := dx, d := 0, e := 1, f := dy }

/-- Embeds `Affine.scale(sx, sy)`. -/
def Affine.scale (sx sy : α) : Affine α :=
  { a := sx, b := 0, c := 0, d := 0, e := sy, f := 0 }

/-- Embeds `Affine.rotation(angle, pivot)` of the `affine` library, with the
floating-point values `ca = cos(angle°)`, `sa = sin(angle°)` (the library's
`cos_sin_deg(angle)`) taken as opaque field elements, and pivot `(px, py)`:
matrix `(ca, -sa, px - px·ca + py·sa; sa, ca, py - px·sa - py·ca)`. -/
def Affine.rotationCS (ca sa : α) (pivot : α × α) : Affine α :=
  { a := ca
    b := -sa
    c := pivot.1 - pivot.1 * ca + pivot.2 * sa
    d := sa
    e := ca
    f := pivot.2 - pivot.1 * sa - pivot.2 * ca }

/-- The `GeoBox` value type (external collaborator, `datacube.utils.geometry`):
pixel shape, affine pixel→world transform, and an opaque CRS tag.
Constructor argument order follows `GeoBox(width, height, affine, crs)`. -/
structure GeoBox (α : Type) where
  width : ℕ
  height : ℕ
  affine : Affine α
  crs : Option String
deriving DecidableEq

/-- The `GeoBox.shape` attribute is `(height, width)`. -/
def GeoBox.shape (g : GeoBox α) : ℕ × ℕ := (g.height, g.width)

/-- The `GeoBox.transform` attribute is the same affine map as `GeoBox.affine`. -/
def GeoBox.transform (g : GeoBox α) : Affine α := g.affine

/-- Embeds `flipy(gbox)`: GeoBox covering the same region but with Y-axis flipped. -/
def flipy (gbox : GeoBox α) : GeoBox α :=
  let H := gbox.shape.1
  let W := gbox.shape.2
  let A := Affine.translation 0 (H : α) * Affine.scale 1 (-1)
  ⟨W, H, gbox.affine * A, gbox.crs⟩

/-- Embeds `flipx(gbox)`: GeoBox covering the same region but with X-axis flipped. -/
def flipx (gbox : GeoBox α) : GeoBox α :=
  let H := gbox.shape.1
  let W := gbox.shape.2
  let A := Affine.translation (W : α) 0 * Affine.scale (-1) 1
  ⟨W, H, gbox.affine * A, gbox.crs⟩

/-- Embeds `translate_pix(gbox, tx, ty)`: shift GeoBox in pixel plane; pixel (0,0) of
the new GeoBox is at the location of pixel (tx, ty) of the original. -/
def translate_pix (gbox : GeoBox α) (tx ty : α) : GeoBox α :=
  let H := gbox.shape.1
  let W := gbox.shape.2
  ⟨W, H, gbox.affine * Affine.translation tx ty, gbox.crs⟩

/-- Embeds `zoom_to(gbox, shape)`: GeoBox covering the same region but with a
different number of pixels; `sx, sy = W/float(w), H/float(h)`. -/
def zoom_to (gbox : GeoBox α) (shape : ℕ × ℕ) : GeoBox α :=
  let H := gbox.shape.1
  let W := gbox.shape.2
  let h := shape.1
  let w := shape.2
  let sx : α := (W : α) / (w : α)
  let sy : α := (H : α) / (h : α)
  ⟨w, h, gbox.affine * Affine.scale sx sy, gbox.crs⟩

/-- Embeds `rotate(gbox, deg)`: rotate the GeoBox counter-clockwise about the world
location of the pixel-space footprint centre `(w*0.5, h*0.5)`; `ca, sa` are
the cosine and sine of `deg` degrees (`cos_sin_deg` inside
`Affine.rotation`), carried as opaque field elements. -/
def rotate (gbox : GeoBox α) (ca sa : α) : GeoBox α :=
  let h := gbox.shape.1
  let w := gbox.shape.2
  let c0 := gbox.transform.apply ((w : α) * (1 / 2), (h : α) * (1 / 2))
  let A := Affine.rotationCS ca sa c0 * gbox.transform
  ⟨w, h, A, gbox.crs⟩

/-- A python `slice(start, stop)` (step `None`), over signed integers. -/
@[ext]
structure Slice where
  start : ℤ
  stop : ℤ
deriving DecidableEq

/-- Membership of a pixel coordinate in the half-open range of a slice. -/
def Slice.mem (s : Slice) (x : ℤ) : Prop := s.start ≤ x ∧ x < s.stop

instance (s : Slice) (x : ℤ) : Decidable (s.mem x) :=
  inferInstanceAs (Decidable (_ ∧ _))

/-- Number of pixels a slice spans. -/
def Slice.extent (s : Slice) : ℤ := s.stop - s.start

/-- Modelled from the spec: the region-slicing operation
`grid_box[row_slice, col_slice]` of the external `GeoBox` entity
(`datacube/utils/geometry/_base.py`, not under `src/`): it "returns a new
GridBox covering the pixel sub-rectangle described by the two slices, with a
correspondingly translated transform and unchanged CRS", and is assumed
correct; in particular it does not raise. -/
def GeoBox.sliceBox (g : GeoBox α) (rs cs : Slice) : GeoBox α :=
  { width := cs.extent.toNat
    height := rs.extent.toNat
    affine := g.affine * Affine.translation (cs.start : α) (rs.start : α)
    crs := g.crs }

/-- Embeds `math.ceil(float(N)/n)` for natural `N` and positive natural `n`,
embedded as exact natural-number ceiling division. -/
def ceilDiv (N n : ℕ) : ℕ := (N + n - 1) / n

/-- Embeds `GeoboxTiles`: partition a GeoBox into sub geoboxes. Fields are
`_gbox`, `_tile_shape`, `_shape` and `_cache` of the python class; the
dict cache is an association list, newest entry first. -/
structure GeoboxTiles (α : Type) where
  gbox : GeoBox α
  tile_shape : ℕ × ℕ
  shape : ℕ × ℕ
  cache : List ((ℤ × ℤ) × GeoBox α)
deriving DecidableEq

/-- Embeds `GeoboxTiles.__init__(box, tile_shape)`: stores the box and tile shape and
computes `_shape = (ceil(H/th), ceil(W/tw))`; the cache starts empty. -/
def mkTiles (box : GeoBox α) (tile_shape : ℕ × ℕ) : GeoboxTiles α :=
  { gbox := box
    tile_shape := tile_shape
    shape := (ceilDiv box.shape.1 tile_shape.1, ceilDiv box.shape.2 tile_shape.2)
    cache := [] }

/-- The inner `_slice(i, N, n)` of `GeoboxTiles._idx_to_slice`:
`_in = i*n`; raise `IndexError` when `_in >= N`; otherwise
`slice(_in, min(_in + n, N))`. -/
def sliceAxis (i : ℤ) (N n : ℕ) : Except Unit Slice :=
  let s := i * n
  if (N : ℤ) ≤ s then .error ()
  else .ok ⟨s, min (s + n) N⟩

/-- Embeds `GeoboxTiles._idx_to_slice(idx)`: apply `_slice` along the row axis
(against `H`, `tile_h`) and the column axis (against `W`, `tile_w`);
the row axis is evaluated first, so its `IndexError` wins. -/
def GeoboxTiles.idxToSlice (t : GeoboxTiles α) (idx : ℤ × ℤ) :
    Except Unit (Slice × Slice) :=
  match sliceAxis idx.1 t.gbox.shape.1 t.tile_shape.1 with
  | .error e => .error e
  | .ok ir =>
    match sliceAxis idx.2 t.gbox.shape.2 t.tile_shape.2 with
    | .error e => .error e
    | .ok ic => .ok (ir, ic)

/-- Embeds `dict.get(idx, None)` on the association-list cache. -/
def cacheLookup (c : List ((ℤ × ℤ) × GeoBox α)) (idx : ℤ × ℤ) :
    Option (GeoBox α) :=
  match c with
  | [] => none
  | (k, v) :: rest => if k = idx then some v else cacheLookup rest idx

/-- Embeds `GeoboxTiles.__getitem__(idx)`: return cached tile if present; otherwise
compute the slices (which may raise `IndexError`), derive the sub-GeoBox via
region slicing, store it (`dict.setdefault`) and return it. The partitioner
state is threaded explicitly: the second component is the partitioner after
the call. -/
def GeoboxTiles.getItem (t : GeoboxTiles α) (idx : ℤ × ℤ) :
    Except Unit (GeoBox α) × GeoboxTiles α :=
  match cacheLookup t.cache idx with
  | some sub_gbox => (.ok sub_gbox, t)
  | none =>
    match t.idxToSlice idx with
    | .error e => (.error e, t)
    | .ok (ir, ic) =>
      let sub := t.gbox.sliceBox ir ic
      (.ok sub, { t with cache := ((idx, sub)) :: t.cache })

/-- The partitioner after a sequence of lookups (results discarded). -/
def runLookups (t : GeoboxTiles α) (l : List (ℤ × ℤ)) : GeoboxTiles α :=
  l.foldl (fun t' i => (t'.getItem i).2) t

/-- The cache invariant of `GeoboxTiles`: every cached entry equals the
GeoBox recomputed fresh as `source_box[row_slice, col_slice]` for its index. -/
def cacheInv (t : GeoboxTiles α) : Prop :=
  ∀ idx g, cacheLookup t.cache idx = some g →
    ∃ s, t.idxToSlice idx = .ok s ∧ g = t.gbox.sliceBox s.1 s.2

/-- A concrete 10×10 GeoBox used for witnesses (matches the spec's concrete
scenarios up to size). -/
def demoBox : GeoBox ℚ :=
  { width := 10, height := 10
    affine := Affine.translation 0 0
    crs := some "EPSG:3577" }

/-- The demo partitioner: 10×10 source box, 3×3 tiles, so grid shape (4, 4). -/
def demoTiles : GeoboxTiles ℚ := mkTiles demoBox (3, 3)

/-! ### Helper lemmas: ceiling division -/

theorem ceilDiv_zero_left (n : ℕ) : ceilDiv 0 n = 0 := by
  unfold ceilDiv
  rcases Nat.eq_zero_or_pos n with h | h
  · subst h; rfl
  · exact Nat.div_eq_of_lt (by omega)

theorem ceilDiv_pos_eq {N n : ℕ} (hn : 0 < n) (hN : 0 < N) :
    ceilDiv N n = (N - 1) / n + 1 := by
  unfold ceilDiv
  have h : N + n - 1 = N - 1 + n := by omega
  rw [h, Nat.add_div_right _ hn]

theorem lt_ceilDiv_iff {N n r : ℕ} (hn : 0 < n) : r < ceilDiv N n ↔ r * n < N := by
  rcases Nat.eq_zero_or_pos N with hN | hN
  · subst hN
    rw [ceilDiv_zero_left]
    omega
  · rw [ceilDiv_pos_eq hn hN, Nat.lt_succ_iff, Nat.le_div_iff_mul_le hn]
    omega

theorem le_ceilDiv_mul {N n : ℕ} (hn : 0 < n) : N ≤ ceilDiv N n * n := by
  by_contra h
  push_neg at h
  exact absurd ((lt_ceilDiv_iff hn).mpr h) (lt_irrefl _)

theorem lt_ceilDiv_iff_int {N n : ℕ} (hn : 0 < n) {i : ℤ} (hi : 0 ≤ i) :
    i < (ceilDiv N n : ℤ) ↔ i * n < (N : ℤ) := by
  obtain ⟨m, rfl⟩ := Int.eq_ofNat_of_zero_le hi
  constructor
  · intro h
    have hm : m < ceilDiv N n := by exact_mod_cast h
    exact_mod_cast (lt_ceilDiv_iff hn).mp hm
  · intro h
    have hm : m * n < N := by exact_mod_cast h
    exact_mod_cast (lt_ceilDiv_iff hn).mpr hm

/-! ### Helper lemmas: slices and the slice computation -/

@[simp]
theorem Slice.mem_def (s : Slice) (x : ℤ) :
    s.mem x ↔ s.start ≤ x ∧ x < s.stop := Iff.rfl

theorem sliceAxis_error_iff {i : ℤ} {N n : ℕ} :
    sliceAxis i N n = .error () ↔ (N : ℤ) ≤ i * n := by
  unfold sliceAxis
  by_cases h : (N : ℤ) ≤ i * n <;> simp [h]

theorem sliceAxis_ok_iff {i : ℤ} {N n : ℕ} {s : Slice} :
    sliceAxis i N n = .ok s ↔
      i * n < (N : ℤ) ∧ s = ⟨i * n, min (i * n + n) N⟩ := by
  unfold sliceAxis
  by_cases h : (N : ℤ) ≤ i * n <;> simp [h, eq_comm] <;> omega

theorem sliceAxis_disjoint {i j : ℤ} {N n : ℕ} {s s' : Slice} (hij : i ≠ j)
    (hi : sliceAxis i N n = .ok s) (hj : sliceAxis j N n = .ok s')
    (y : ℤ) (hy : s.mem y) : ¬ s'.mem y := by
  obtain ⟨hiN, rfl⟩ := sliceAxis_ok_iff.mp hi
  obtain ⟨hjN, rfl⟩ := sliceAxis_ok_iff.mp hj
  intro hy'
  simp only [Slice.mem_def] at hy hy'
  have hn0 : (0 : ℤ) ≤ (n : ℤ) := by exact_mod_cast Nat.zero_le n
  have e1 : (i + 1) * (n : ℤ) = i * n + n := by ring
  have e2 : (j + 1) * (n : ℤ) = j * n + n := by ring
  rcases lt_or_gt_of_ne hij with h | h
  · have h1 : y < i * n + n := lt_of_lt_of_le hy.2 (min_le_left _ _)
    have h2 : (i + 1) * (n : ℤ) ≤ j * n :=
      mul_le_mul_of_nonneg_right (by omega) hn0
    omega
  · have h1 : y < j * n + n := lt_of_lt_of_le hy'.2 (min_le_left _ _)
    have h2 : (j + 1) * (n : ℤ) ≤ i * n :=
      mul_le_mul_of_nonneg_right (by omega) hn0
    omega

theorem sliceAxis_cover {N n : ℕ} (hn : 0 < n) {y : ℤ} (hy0 : 0 ≤ y)
    (hyN : y < (N : ℤ)) :
    ∃! i : ℤ, (0 ≤ i ∧ i < (ceilDiv N n : ℤ)) ∧
      ∃ s, sliceAxis i N n = .ok s ∧ s.mem y := by
  have hn' : (0 : ℤ) < n := by exact_mod_cast hn
  have hlow : (y / n) * n ≤ y := (Int.le_ediv_iff_mul_le hn').mp le_rfl
  have hhigh : y < (y / n + 1) * n := (Int.ediv_lt_iff_lt_mul hn').mp (lt_add_one _)
  have hi0 : 0 ≤ y / n := Int.ediv_nonneg hy0 (le_of_lt hn')
  have hstart : (y / n) * n < (N : ℤ) := lt_of_le_of_lt hlow hyN
  have hexp : (y / n + 1) * (n : ℤ) = (y / n) * n + n := by ring
  refine ⟨y / n, ⟨⟨hi0, (lt_ceilDiv_iff_int hn hi0).mpr hstart⟩,
    ⟨⟨(y / n) * n, min ((y / n) * n + n) N⟩, sliceAxis_ok_iff.mpr ⟨hstart, rfl⟩, ?_⟩⟩, ?_⟩
  · simp only [Slice.mem_def]
    refine ⟨hlow, lt_min (by omega) hyN⟩
  · rintro j ⟨⟨hj0, hjlt⟩, s, hs, hmem⟩
    obtain ⟨hjN, rfl⟩ := sliceAxis_ok_iff.mp hs
    simp only [Slice.mem_def] at hmem
    have hj1 : j * n ≤ y := hmem.1
    have hj2 : y < j * n + n := lt_of_lt_of_le hmem.2 (min_le_left _ _)
    have hexp2 : (j + 1) * (n : ℤ) = j * n + n := by ring
    have hle : j ≤ y / n := (Int.le_ediv_iff_mul_le hn').mpr hj1
    have hlt : y / n < j + 1 := (Int.ediv_lt_iff_lt_mul hn').mpr (by omega)
    omega

/-! ### Helper lemmas: the partitioner -/

@[simp]
theorem idxToSlice_set_cache (t : GeoboxTiles α) (c' : List ((ℤ × ℤ) × GeoBox α))
    (idx : ℤ × ℤ) :
    ({ t with cache := c' } : GeoboxTiles α).idxToSlice idx = t.idxToSlice idx := rfl

@[simp]
theorem gbox_set_cache (t : GeoboxTiles α) (c' : List ((ℤ × ℤ) × GeoBox α)) :
    ({ t with cache := c' } : GeoboxTiles α).gbox = t.gbox := rfl

@[simp]
theorem cacheLookup_nil (idx : ℤ × ℤ) :
    cacheLookup ([] : List ((ℤ × ℤ) × GeoBox α)) idx = none := rfl

@[simp]
theorem cacheLookup_cons (k : ℤ × ℤ) (v : GeoBox α)
    (rest : List ((ℤ × ℤ) × GeoBox α)) (idx : ℤ × ℤ) :
    cacheLookup ((k, v) :: rest) idx =
      if k = idx then some v else cacheLookup rest idx := rfl

theorem idxToSlice_ok_iff (t : GeoboxTiles α) (r c : ℤ) (s : Slice × Slice) :
    t.idxToSlice (r, c) = .ok s ↔
      sliceAxis r t.gbox.shape.1 t.tile_shape.1 = .ok s.1 ∧
      sliceAxis c t.gbox.shape.2 t.tile_shape.2 = .ok s.2 := by
  unfold GeoboxTiles.idxToSlice
  rcases h1 : sliceAxis r t.gbox.shape.1 t.tile_shape.1 with e | s1 <;>
    rcases h2 : sliceAxis c t.gbox.shape.2 t.tile_shape.2 with e2 | s2 <;>
      simp [Prod.ext_iff, eq_comm]

theorem idxToSlice_error_iff (t : GeoboxTiles α) (r c : ℤ) :
    t.idxToSlice (r, c) = .error () ↔
      sliceAxis r t.gbox.shape.1 t.tile_shape.1 = .error () ∨
      sliceAxis c t.gbox.shape.2 t.tile_shape.2 = .error () := by
  unfold GeoboxTiles.idxToSlice
  rcases h1 : sliceAxis r t.gbox.shape.1 t.tile_shape.1 with e | s1 <;>
    rcases h2 : sliceAxis c t.gbox.shape.2 t.tile_shape.2 with e2 | s2 <;>
      simp

theorem getItem_cache_hit {t : GeoboxTiles α} {idx : ℤ × ℤ} {g : GeoBox α}
    (h : cacheLookup t.cache idx = some g) : t.getItem idx = (.ok g, t) := by
  unfold GeoboxTiles.getItem
  rw [h]

theorem getItem_cache_miss_error {t : GeoboxTiles α} {idx : ℤ × ℤ}
    (h : cacheLookup t.cache idx = none) (h2 : t.idxToSlice idx = .error ()) :
    t.getItem idx = (.error (), t) := by
  unfold GeoboxTiles.getItem
  rw [h, h2]

theorem getItem_cache_miss_ok {t : GeoboxTiles α} {idx : ℤ × ℤ} {s1 s2 : Slice}
    (h : cacheLookup t.cache idx = none) (h2 : t.idxToSlice idx = .ok (s1, s2)) :
    t.getItem idx = (.ok (t.gbox.sliceBox s1 s2),
      { t with cache := (idx, t.gbox.sliceBox s1 s2) :: t.cache }) := by
  unfold GeoboxTiles.getItem
  rw [h, h2]

/-! ### Claim theorems: transform functions -/

/-- C7: for every GeoBox `b`, `flipx (flipx b)` and `flipy (flipy b)` each
reproduce a grid box with the same shape and (in exact arithmetic) a
transform equal to the original — indeed the whole GeoBox is reproduced
exactly, so the flips are self-inverse. -/
theorem C7_flips_self_inverse (g : GeoBox α) :
    flipx (flipx g) = g ∧ flipy (flipy g) = g := by
  obtain ⟨W, H, A, c⟩ := g
  constructor <;>
  · simp only [flipx, flipy, GeoBox.shape, GeoBox.mk.injEq, Affine.mul_def,
      Affine.comp, Affine.translation, Affine.scale, true_and, and_true]
    ext <;> ring

/-- C8: for every GeoBox `b` and offsets, translating pixels twice composes
additively: `translate_pix (translate_pix b tx1 ty1) tx2 ty2` equals
`translate_pix b (tx1+tx2) (ty1+ty2)` exactly (same shape, CRS and
transform). -/
theorem C8_translate_pix_composes (g : GeoBox α) (tx1 ty1 tx2 ty2 : α) :
    translate_pix (translate_pix g tx1 ty1) tx2 ty2 =
      translate_pix g (tx1 + tx2) (ty1 + ty2) := by
  obtain ⟨W, H, A, c⟩ := g
  simp only [translate_pix, GeoBox.shape, GeoBox.mk.injEq, Affine.mul_def,
    Affine.comp, Affine.translation, true_and, and_true]
  ext <;> ring

/-- C5: `rotate` keeps the pixel shape `(H, W)` and the CRS unchanged, and its
transform is `rotation(deg, center)` composed on the LEFT of `A`, where
`center = A · (W/2, H/2)` is the world location of the footprint centre
(`ca, sa` are the cosine and sine of the angle); moreover a rotation about a
pivot fixes that pivot, so the centre really is the centre of rotation. -/
theorem C5_rotate_shape_and_transform (g : GeoBox α) (ca sa : α) :
    (rotate g ca sa).shape = g.shape ∧
    (rotate g ca sa).crs = g.crs ∧
    (rotate g ca sa).transform =
      Affine.rotationCS ca sa
        (g.transform.apply ((g.shape.2 : α) * (1 / 2), (g.shape.1 : α) * (1 / 2)))
        * g.transform ∧
    ∀ p : α × α, (Affine.rotationCS ca sa p).apply p = p := by
  refine ⟨rfl, rfl, rfl, fun p => ?_⟩
  simp only [Affine.rotationCS, Affine.apply, Prod.ext_iff]
  constructor <;> ring

/-- C6: for `h, w ≥ 1`, `zoom_to b (h, w)` has shape exactly `(h, w)`,
unchanged CRS, and transform `A ∘ scale(W/w, H/h)` with exact (field,
non-truncating) division. -/
theorem C6_zoom_to_exact (g : GeoBox α) (h w : ℕ) (hh : 1 ≤ h) (hw : 1 ≤ w) :
    (zoom_to g (h, w)).shape = (h, w) ∧
    (zoom_to g (h, w)).crs = g.crs ∧
    (zoom_to g (h, w)).affine =
      g.affine * Affine.scale ((g.shape.2 : α) / (w : α)) ((g.shape.1 : α) / (h : α)) :=
  ⟨rfl, rfl, rfl⟩

/-- Closed instance of C6 at the demo box and target shape (5, 4). -/
theorem C6_zoom_to_exact_witness :
    (zoom_to demoBox (5, 4)).shape = (5, 4) ∧
    (zoom_to demoBox (5, 4)).crs = demoBox.crs ∧
    (zoom_to demoBox (5, 4)).affine =
      demoBox.affine *
        Affine.scale ((demoBox.shape.2 : ℚ) / ((4 : ℕ) : ℚ))
          ((demoBox.shape.1 : ℚ) / ((5 : ℕ) : ℚ)) :=
  C6_zoom_to_exact demoBox 5 4 (by decide) (by decide)

/-! ### Helper lemmas: the cache -/

theorem cacheInv_mkTiles (box : GeoBox α) (ts : ℕ × ℕ) :
    cacheInv (mkTiles box ts) := by
  intro idx g h
  simp [mkTiles] at h

theorem cacheInv_getItem {t : GeoboxTiles α} (h : cacheInv t) (idx : ℤ × ℤ) :
    cacheInv (t.getItem idx).2 := by
  rcases hcl : cacheLookup t.cache idx with _ | g
  · cases hs : t.idxToSlice idx with
    | error e =>
      cases e
      rw [getItem_cache_miss_error hcl hs]
      exact h
    | ok s =>
      obtain ⟨s1, s2⟩ := s
      rw [getItem_cache_miss_ok hcl hs]
      intro idx' g' hg'
      by_cases hidx : idx = idx'
      · subst hidx
        simp at hg'
        exact ⟨(s1, s2), by simpa using hs, by simp [← hg']⟩
      · simp only [cacheLookup_cons, if_neg hidx] at hg'
        obtain ⟨s', hs', hgeq⟩ := h idx' g' hg'
        exact ⟨s', by simpa using hs', by simpa using hgeq⟩
  · rw [getItem_cache_hit hcl]
    exact h

theorem getItem_idem {t : GeoboxTiles α} {idx : ℤ × ℤ} {g : GeoBox α}
    {t' : GeoboxTiles α} (h : t.getItem idx = (.ok g, t')) :
    t'.getItem idx = (.ok g, t') := by
  rcases hcl : cacheLookup t.cache idx with _ | g0
  · cases hs : t.idxToSlice idx with
    | error e =>
      cases e
      rw [getItem_cache_miss_error hcl hs] at h
      simp [Prod.ext_iff] at h
    | ok s =>
      obtain ⟨s1, s2⟩ := s
      rw [getItem_cache_miss_ok hcl hs] at h
      simp only [Prod.mk.injEq, Except.ok.injEq] at h
      obtain ⟨hg, ht'⟩ := h
      subst ht'
      exact getItem_cache_hit (by simp [← hg])
  · rw [getItem_cache_hit hcl] at h
    simp only [Prod.mk.injEq, Except.ok.injEq] at h
    obtain ⟨hg, ht'⟩ := h
    subst ht'
    exact getItem_cache_hit (by rw [hcl, hg])

theorem cacheInv_runLookups {t : GeoboxTiles α} (h : cacheInv t)
    (l : List (ℤ × ℤ)) : cacheInv (runLookups t l) := by
  induction l generalizing t with
  | nil => exact h
  | cons i rest ih => exact ih (cacheInv_getItem h i)

/-- The function `ceilDiv` agrees with the mathematical ceiling of the exact division,
which is what `math.ceil(float(N)/n)` computes (up to float rounding). -/
theorem ceilDiv_cast_eq_ceil {N n : ℕ} (hn : 0 < n) :
    ((ceilDiv N n : ℕ) : ℤ) = ⌈(N : ℚ) / (n : ℚ)⌉ := by
  have hn' : (0 : ℚ) < (n : ℚ) := by exact_mod_cast hn
  refine le_antisymm ?_ ?_
  · rcases Nat.eq_zero_or_pos N with hN | hN
    · subst hN
      simp [ceilDiv_zero_left]
    · have hL : 0 < ceilDiv N n := (lt_ceilDiv_iff hn).mpr (by simpa using hN)
      obtain ⟨M, hM⟩ : ∃ M, ceilDiv N n = M + 1 := ⟨ceilDiv N n - 1, by omega⟩
      have hlt : M * n < N := (lt_ceilDiv_iff hn).mp (by omega)
      have h2 : ((M : ℤ)) < ⌈(N : ℚ) / (n : ℚ)⌉ := by
        rw [Int.lt_ceil, lt_div_iff hn']
        exact_mod_cast hlt
      rw [hM]
      push_cast
      omega
  · rw [Int.ceil_le, div_le_iff hn']
    exact_mod_cast le_ceilDiv_mul hn

/-- The boundary (last) tile along an axis spans `N mod n` pixels, or `n`
when `n` divides `N`. -/
theorem sliceAxis_boundary {N n : ℕ} (hn : 0 < n) (hN : 0 < N) :
    ∃ s, sliceAxis ((ceilDiv N n : ℕ) - 1 : ℤ) N n = .ok s ∧
      s.extent = if n ∣ N then (n : ℤ) else ((N % n : ℕ) : ℤ) := by
  have hL : 0 < ceilDiv N n := (lt_ceilDiv_iff hn).mpr (by simpa using hN)
  obtain ⟨M, hM⟩ : ∃ M, ceilDiv N n = M + 1 := ⟨ceilDiv N n - 1, by omega⟩
  have hstart : M * n < N := (lt_ceilDiv_iff hn).mp (by omega)
  have hstop : N ≤ (M + 1) * n := by
    have h := le_ceilDiv_mul (N := N) hn
    rwa [hM] at h
  have hexp : (M + 1) * n = M * n + n := by ring
  have hcast : ((ceilDiv N n : ℕ) : ℤ) - 1 = (M : ℤ) := by
    rw [hM]; push_cast; ring
  rw [hcast]
  have hok : sliceAxis (M : ℤ) N n = .ok ⟨(M : ℤ) * n, min ((M : ℤ) * n + n) N⟩ :=
    sliceAxis_ok_iff.mpr ⟨by exact_mod_cast hstart, rfl⟩
  have hmin : min ((M : ℤ) * n + n) (N : ℤ) = (N : ℤ) := by
    have h2 : (N : ℤ) ≤ ((M + 1) * n : ℕ) := by exact_mod_cast hstop
    have h3 : (((M + 1) * n : ℕ) : ℤ) = (M : ℤ) * n + n := by push_cast; ring
    exact min_eq_right (by omega)
  refine ⟨_, hok, ?_⟩
  rw [hmin]
  simp only [Slice.extent]
  have heN : N = M * n + (N - M * n) := by omega
  have he1 : 1 ≤ N - M * n := by omega
  have hen : N - M * n ≤ n := by omega
  have hmod : N % n = (N - M * n) % n := by
    conv_lhs => rw [heN]
    rw [Nat.add_comm, Nat.add_mul_mod_self_right]
  rcases eq_or_lt_of_le hen with heq | hlt
  · have hd : n ∣ N := by
      refine ⟨M + 1, ?_⟩
      have hexp2 : n * (M + 1) = M * n + n := by ring
      omega
    rw [if_pos hd]
    have hNint : (N : ℤ) = (M : ℤ) * n + n := by
      have : N = M * n + n := by omega
      exact_mod_cast this
    omega
  · have hmod2 : N % n = N - M * n := by rw [hmod, Nat.mod_eq_of_lt hlt]
    have hd : ¬ n ∣ N := by
      intro hdvd
      obtain ⟨q, hq⟩ := hdvd
      have h0 : N % n = 0 := by
        rw [hq, Nat.mul_mod_right]
      omega
    rw [if_neg hd]
    have hNint : (N : ℤ) = (M : ℤ) * n + ((N - M * n : ℕ) : ℤ) := by exact_mod_cast heN
    have hmodint : ((N % n : ℕ) : ℤ) = ((N - M * n : ℕ) : ℤ) := by exact_mod_cast hmod2
    omega

/-! ### Claim theorems: the tile partitioner -/

/-- C4: the per-axis slice computation sets `start = i * n`, raises the
out-of-range error exactly when `start ≥ N`, and otherwise returns
`slice(start, min(start + n, N))`; interior tiles have exactly the tile
extent, and distinct indices give disjoint (non-overlapping) slices;
`_idx_to_slice` applies this rule on both axes. -/
theorem C4_slice_clipping_rule (i : ℤ) (N n : ℕ) (t : GeoboxTiles α) :
    (sliceAxis i N n = .error () ↔ (N : ℤ) ≤ i * n) ∧
    (i * n < (N : ℤ) → sliceAxis i N n = .ok ⟨i * n, min (i * n + n) N⟩) ∧
    (0 < n → i * n + n ≤ (N : ℤ) →
      ∃ s, sliceAxis i N n = .ok s ∧ s.extent = n) ∧
    (∀ j s s', i ≠ j → sliceAxis i N n = .ok s → sliceAxis j N n = .ok s' →
      ∀ y, s.mem y → ¬ s'.mem y) ∧
    (∀ (r c : ℤ) (s : Slice × Slice),
      t.idxToSlice (r, c) = .ok s ↔
        sliceAxis r t.gbox.shape.1 t.tile_shape.1 = .ok s.1 ∧
        sliceAxis c t.gbox.shape.2 t.tile_shape.2 = .ok s.2) := by
  refine ⟨sliceAxis_error_iff, fun h => sliceAxis_ok_iff.mpr ⟨h, rfl⟩,
    fun hn h => ?_, fun j s s' hij hi hj => sliceAxis_disjoint hij hi hj,
    fun r c s => idxToSlice_ok_iff t r c s⟩
  have hn' : (0 : ℤ) < n := by exact_mod_cast hn
  have hlt : i * n < (N : ℤ) := by omega
  refine ⟨⟨i * n, min (i * n + n) N⟩, sliceAxis_ok_iff.mpr ⟨hlt, rfl⟩, ?_⟩
  simp only [Slice.extent]
  omega

/-- Closed instance of C4: the interior tile at row index 1 of a 10-pixel
axis with 3-pixel tiles spans `slice(3, 6)`. -/
theorem C4_slice_clipping_rule_witness :
    sliceAxis 1 10 3 = .ok ⟨1 * ((3 : ℕ) : ℤ), min (1 * ((3 : ℕ) : ℤ) + ((3 : ℕ) : ℤ)) ((10 : ℕ) : ℤ)⟩ :=
  (C4_slice_clipping_rule 1 10 3 demoTiles).2.1 (by decide)

/-- C9: a lookup at an index that is componentwise within `[0, grid_shape)`
never raises: `row < ceil(H/th)` forces `row*th < H` (and likewise for
columns), so the out-of-range branch is unreachable and `__getitem__`
returns a tile (whatever the current cache contents). -/
theorem C9_valid_index_never_raises (box : GeoBox α) (th tw : ℕ)
    (cache : List ((ℤ × ℤ) × GeoBox α)) (r c : ℤ)
    (hth : 0 < th) (htw : 0 < tw)
    (hr0 : 0 ≤ r) (hr : r < (((mkTiles box (th, tw) : GeoboxTiles α)).shape.1 : ℤ))
    (hc0 : 0 ≤ c) (hc : c < (((mkTiles box (th, tw) : GeoboxTiles α)).shape.2 : ℤ)) :
    r * th < (box.shape.1 : ℤ) ∧ c * tw < (box.shape.2 : ℤ) ∧
    (∃ s, ({ mkTiles box (th, tw) with cache := cache } : GeoboxTiles α).idxToSlice (r, c) = .ok s) ∧
    (∃ g t', ({ mkTiles box (th, tw) with cache := cache } : GeoboxTiles α).getItem (r, c) = (.ok g, t')) := by
  simp only [mkTiles] at hr hc
  have h1 : r * th < (box.shape.1 : ℤ) := (lt_ceilDiv_iff_int hth hr0).mp hr
  have h2 : c * tw < (box.shape.2 : ℤ) := (lt_ceilDiv_iff_int htw hc0).mp hc
  have hok : ({ mkTiles box (th, tw) with cache := cache } : GeoboxTiles α).idxToSlice (r, c) =
      .ok (⟨r * th, min (r * th + th) box.shape.1⟩, ⟨c * tw, min (c * tw + tw) box.shape.2⟩) := by
    refine (idxToSlice_ok_iff _ r c _).mpr ⟨?_, ?_⟩
    · exact sliceAxis_ok_iff.mpr ⟨h1, rfl⟩
    · exact sliceAxis_ok_iff.mpr ⟨h2, rfl⟩
  refine ⟨h1, h2, ⟨_, hok⟩, ?_⟩
  rcases hcl : cacheLookup cache (r, c) with _ | g
  · exact ⟨_, _, getItem_cache_miss_ok hcl hok⟩
  · exact ⟨g, _, getItem_cache_hit (by simpa using hcl)⟩

/-- Closed instance of C9 at the demo partitioner and the last valid
index (3, 3) of the 4×4 grid. -/
theorem C9_valid_index_never_raises_witness :
    (3 : ℤ) * (3 : ℕ) < ((demoBox.shape.1 : ℕ) : ℤ) ∧
    (3 : ℤ) * (3 : ℕ) < ((demoBox.shape.2 : ℕ) : ℤ) ∧
    (∃ s, ({ mkTiles demoBox (3, 3) with cache := [] } : GeoboxTiles ℚ).idxToSlice (3, 3) = .ok s) ∧
    (∃ g t', ({ mkTiles demoBox (3, 3) with cache := [] } : GeoboxTiles ℚ).getItem (3, 3) = (.ok g, t')) :=
  C9_valid_index_never_raises demoBox 3 3 [] 3 3 (by decide) (by decide)
    (by decide) (by decide) (by decide) (by decide)

/-- C10: a lookup that raises the out-of-range error leaves the partitioner
unchanged — the error is raised before any cache write, so no entry is
added for the failing index. -/
theorem C10_failed_lookup_state_unchanged (t : GeoboxTiles α) (idx : ℤ × ℤ)
    (h : (t.getItem idx).1 = .error ()) : (t.getItem idx).2 = t := by
  rcases hcl : cacheLookup t.cache idx with _ | g
  · cases hs : t.idxToSlice idx with
    | error e =>
      cases e
      rw [getItem_cache_miss_error hcl hs]
    | ok s =>
      obtain ⟨s1, s2⟩ := s
      rw [getItem_cache_miss_ok hcl hs] at h
      simp at h
  · rw [getItem_cache_hit hcl] at h
    simp at h

/-- Closed instance of C10: the failing lookup (4, 0) on the demo
partitioner returns it unchanged. -/
theorem C10_failed_lookup_state_unchanged_witness :
    (demoTiles.getItem (4, 0)).2 = demoTiles :=
  C10_failed_lookup_state_unchanged demoTiles (4, 0) (by decide)

/-- C2: the cache never returns a stale or incorrect result — after any
sequence of lookups starting from construction, every cached entry equals
the tile recomputed fresh from `source_box[row_slice, col_slice]`; one
lookup preserves the invariant from any state satisfying it; and a repeated
lookup of the same index returns the identical (identity-equal, in the
embedding: equal) tile and the identical partitioner state. -/
theorem C2_cache_never_stale (box : GeoBox α) (ts : ℕ × ℕ) (t : GeoboxTiles α)
    (idx : ℤ × ℤ) (l : List (ℤ × ℤ)) :
    cacheInv (runLookups (mkTiles box ts) l) ∧
    (cacheInv t → cacheInv (t.getItem idx).2) ∧
    (∀ g t', t.getItem idx = (.ok g, t') → t'.getItem idx = (.ok g, t')) :=
  ⟨cacheInv_runLookups (cacheInv_mkTiles box ts) l,
   fun h => cacheInv_getItem h idx,
   fun _ _ h => getItem_idem h⟩

/-- Closed instance of C2: the invariant holds after a concrete lookup
sequence (with a repeat and an out-of-range index) on the demo partitioner. -/
theorem C2_cache_never_stale_witness :
    cacheInv (runLookups (mkTiles demoBox (3, 3)) [(0, 0), (0, 0), (2, 3), (4, 0)]) :=
  (C2_cache_never_stale demoBox (3, 3) demoTiles (0, 0)
    [(0, 0), (0, 0), (2, 3), (4, 0)]).1

/-- Every in-range pixel lies in the slice rectangle of exactly one valid
tile index. -/
theorem tiles_cover (box : GeoBox α) (th tw : ℕ) (hth : 0 < th) (htw : 0 < tw)
    {y x : ℤ} (hy0 : 0 ≤ y) (hyH : y < (box.shape.1 : ℤ))
    (hx0 : 0 ≤ x) (hxW : x < (box.shape.2 : ℤ)) :
    ∃! rc : ℤ × ℤ,
      (0 ≤ rc.1 ∧ rc.1 < (((mkTiles box (th, tw) : GeoboxTiles α)).shape.1 : ℤ) ∧
       0 ≤ rc.2 ∧ rc.2 < (((mkTiles box (th, tw) : GeoboxTiles α)).shape.2 : ℤ)) ∧
      ∃ s, (mkTiles box (th, tw) : GeoboxTiles α).idxToSlice rc = .ok s ∧
        s.1.mem y ∧ s.2.mem x := by
  obtain ⟨r, ⟨⟨hr0, hrlt⟩, sr, hsr, hmemr⟩, hruniq⟩ :=
    sliceAxis_cover (N := box.shape.1) hth hy0 hyH
  obtain ⟨c, ⟨⟨hc0, hclt⟩, sc, hsc, hmemc⟩, hcuniq⟩ :=
    sliceAxis_cover (N := box.shape.2) htw hx0 hxW
  refine ⟨(r, c), ⟨⟨hr0, hrlt, hc0, hclt⟩,
    (sr, sc), (idxToSlice_ok_iff _ r c _).mpr ⟨hsr, hsc⟩, hmemr, hmemc⟩, ?_⟩
  rintro ⟨r', c'⟩ ⟨⟨hr0', hrlt', hc0', hclt'⟩, s, hs, hmy, hmx⟩
  obtain ⟨hs1, hs2⟩ := (idxToSlice_ok_iff _ r' c' _).mp hs
  have h1 : r' = r := hruniq r' ⟨⟨hr0', hrlt'⟩, s.1, hs1, hmy⟩
  have h2 : c' = c := hcuniq c' ⟨⟨hc0', hclt'⟩, s.2, hs2, hmx⟩
  simp [h1, h2]

/-- C3: for positive `(H, W)` and `(th, tw)` the grid shape is
`(⌈H/th⌉, ⌈W/tw⌉)` (true mathematical ceiling); the tile slice rectangles
of the valid indices cover `[0,H) × [0,W)` with no overlap and no gap (each
pixel lies in exactly one tile); and the last row/column tile spans
`H mod th` pixels (`th` when `th ∣ H`), resp. `W mod tw` (`tw` when
`tw ∣ W`). -/
theorem C3_grid_shape_and_exact_cover (box : GeoBox α) (th tw : ℕ)
    (hth : 0 < th) (htw : 0 < tw)
    (hH : 0 < box.shape.1) (hW : 0 < box.shape.2) :
    ((((mkTiles box (th, tw) : GeoboxTiles α)).shape.1 : ℤ) = ⌈(box.shape.1 : ℚ) / (th : ℚ)⌉ ∧
     (((mkTiles box (th, tw) : GeoboxTiles α)).shape.2 : ℤ) = ⌈(box.shape.2 : ℚ) / (tw : ℚ)⌉) ∧
    (∀ y x : ℤ, 0 ≤ y → y < (box.shape.1 : ℤ) → 0 ≤ x → x < (box.shape.2 : ℤ) →
      ∃! rc : ℤ × ℤ,
        (0 ≤ rc.1 ∧ rc.1 < (((mkTiles box (th, tw) : GeoboxTiles α)).shape.1 : ℤ) ∧
         0 ≤ rc.2 ∧ rc.2 < (((mkTiles box (th, tw) : GeoboxTiles α)).shape.2 : ℤ)) ∧
        ∃ s, (mkTiles box (th, tw) : GeoboxTiles α).idxToSlice rc = .ok s ∧
          s.1.mem y ∧ s.2.mem x) ∧
    (∃ s, (mkTiles box (th, tw) : GeoboxTiles α).idxToSlice
        (((((mkTiles box (th, tw) : GeoboxTiles α)).shape.1 : ℕ) : ℤ) - 1,
         ((((mkTiles box (th, tw) : GeoboxTiles α)).shape.2 : ℕ) : ℤ) - 1) = .ok s ∧
      s.1.extent = (if th ∣ box.shape.1 then (th : ℤ) else ((box.shape.1 % th : ℕ) : ℤ)) ∧
      s.2.extent = (if tw ∣ box.shape.2 then (tw : ℤ) else ((box.shape.2 % tw : ℕ) : ℤ))) := by
  refine ⟨⟨ceilDiv_cast_eq_ceil hth, ceilDiv_cast_eq_ceil htw⟩,
    fun y x hy0 hyH hx0 hxW => tiles_cover box th tw hth htw hy0 hyH hx0 hxW, ?_⟩
  obtain ⟨s1, hs1, he1⟩ := sliceAxis_boundary hth hH
  obtain ⟨s2, hs2, he2⟩ := sliceAxis_boundary htw hW
  exact ⟨(s1, s2), (idxToSlice_ok_iff _ _ _ _).mpr ⟨hs1, hs2⟩, he1, he2⟩

/-- Closed instance of C3's grid-shape clause at the demo partitioner:
grid shape 4 = ⌈10/3⌉ on both axes. -/
theorem C3_grid_shape_and_exact_cover_witness :
    ((((mkTiles demoBox (3, 3) : GeoboxTiles ℚ)).shape.1 : ℤ) = ⌈(demoBox.shape.1 : ℚ) / ((3 : ℕ) : ℚ)⌉ ∧
     (((mkTiles demoBox (3, 3) : GeoboxTiles ℚ)).shape.2 : ℤ) = ⌈(demoBox.shape.2 : ℚ) / ((3 : ℕ) : ℚ)⌉) :=
  (C3_grid_shape_and_exact_cover demoBox 3 3 (by decide) (by decide)
    (by decide) (by decide)).1

/-- C1 (code bug record): indices at or beyond `grid_shape` on either axis
do raise the out-of-range error, but an index with a negative component
does NOT raise, contradicting the claim and the docstring of
`GeoboxTiles.__getitem__` ("Will raise IndexError when index is outside of
[(0,0) -> .shape)"): `start = i*n` is negative, the only check is
`start >= N`, and the negative-start slice is silently passed to the
region-slicing operation. -/
theorem C1_negative_index_not_rejected :
    demoTiles.shape = (4, 4) ∧
    (demoTiles.getItem (4, 0)).1 = .error () ∧
    (demoTiles.getItem (0, 4)).1 = .error () ∧
    ¬ (demoTiles.getItem (-1, 0)).1 = .error () ∧
    demoTiles.idxToSlice (-1, 0) = .ok (⟨-3, 0⟩, ⟨0, 3⟩) := by
  decide

end DatacubeGbox
